import Mathlib

/-!
Verification development for the Texas Hold'em poker engine of this
repository: a shallow embedding of `CardManager.ts`, `PokerGameEngine.ts`,
the `HandEvaluator` and the `PotManager`, with theorems about card
parsing, shuffling, hand evaluation, pot partition and distribution,
raise validation, blind rotation, and event fan-out.
-/

namespace Poker

/-- Card ranks 2..9, T, J, Q, K, A (from `types.ts`). -/
inductive Rank
  | r2 | r3 | r4 | r5 | r6 | r7 | r8 | r9 | rT | rJ | rQ | rK | rA
deriving DecidableEq, Repr

/-- Card suits hearts, diamonds, clubs, spades (from `types.ts`). -/
inductive Suit
  | h | d | c | s
deriving DecidableEq, Repr

/-- A playing card, identified by (rank, suit) (from `types.ts`). -/
structure Card where
  rank : Rank
  suit : Suit
deriving DecidableEq, Repr

/-- Numeric value of a rank (`HandEvaluator.rankValue`): 2..10, J=11, Q=12, K=13, A=14. -/
def rankValue : Rank → Nat
  | .r2 => 2
  | .r3 => 3
  | .r4 => 4
  | .r5 => 5
  | .r6 => 6
  | .r7 => 7
  | .r8 => 8
  | .r9 => 9
  | .rT => 10
  | .rJ => 11
  | .rQ => 12
  | .rK => 13
  | .rA => 14

/-- Rank of a hand together with its name and tiebreakers (from `types.ts`,
`HandRank`): `rank` is 0 (high card) .. 8 (straight flush). -/
structure HandRank where
  rank : Nat
  name : String
  tiebreakers : List Nat
deriving DecidableEq, Repr

/-- Per-player state during a hand (from `types.ts`, `PlayerState`).
Chip quantities are modelled as integers, as JavaScript numbers are. -/
structure PlayerState where
  userId : Nat
  username : String
  position : Nat
  stack : Int
  currentBet : Int
  holeCards : Option (Card × Card)
  isActive : Bool
  isFolded : Bool
  hasActed : Bool
deriving DecidableEq, Repr

/-!
CardManager (`src/backend/poker/CardManager.ts`): card string form,
deck creation and Fisher-Yates shuffling.  Strings are modelled as
lists of characters.
-/

/-- Character of a rank, as used by `CardManager.cardToString`. -/
def rankChar : Rank → Char
  | .r2 => '2'
  | .r3 => '3'
  | .r4 => '4'
  | .r5 => '5'
  | .r6 => '6'
  | .r7 => '7'
  | .r8 => '8'
  | .r9 => '9'
  | .rT => 'T'
  | .rJ => 'J'
  | .rQ => 'Q'
  | .rK => 'K'
  | .rA => 'A'

/-- Character of a suit, as used by `CardManager.cardToString`. -/
def suitChar : Suit → Char
  | .h => 'h'
  | .d => 'd'
  | .c => 'c'
  | .s => 's'

/-- The membership test `validRanks.includes(rank)` of `CardManager.stringToCard`,
rendered as a parse: the result is `some` exactly for the 13 valid rank characters. -/
def charToRank (ch : Char) : Option Rank :=
  if ch = '2' then some .r2
  else if ch = '3' then some .r3
  else if ch = '4' then some .r4
  else if ch = '5' then some .r5
  else if ch = '6' then some .r6
  else if ch = '7' then some .r7
  else if ch = '8' then some .r8
  else if ch = '9' then some .r9
  else if ch = 'T' then some .rT
  else if ch = 'J' then some .rJ
  else if ch = 'Q' then some .rQ
  else if ch = 'K' then some .rK
  else if ch = 'A' then some .rA
  else none

/-- The membership test `validSuits.includes(suit)` of `CardManager.stringToCard`,
rendered as a parse: the result is `some` exactly for the 4 valid suit characters. -/
def charToSuit (ch : Char) : Option Suit :=
  if ch = 'h' then some .h
  else if ch = 'd' then some .d
  else if ch = 'c' then some .c
  else if ch = 's' then some .s
  else none

/-- `CardManager.cardToString`: the two-character rank-suit form. -/
def cardToString (card : Card) : List Char :=
  [rankChar card.rank, suitChar card.suit]

/-- `CardManager.stringToCard`: a two-character string whose first character is a
valid rank and second a valid suit parses to a card; everything else throws. -/
def stringToCard (str : List Char) : Except String Card :=
  match str with
  | [r, su] =>
    match charToRank r, charToSuit su with
    | some rank, some suit => .ok ⟨rank, suit⟩
    | _, _ => .error "Invalid card string"
  | _ => .error "Invalid card string"

/-- `CardManager.createDeck`: all 52 cards, suits outer, ranks inner. -/
def createDeck : List Card :=
  ([Suit.h, Suit.d, Suit.c, Suit.s]).flatMap fun suit =>
    ([Rank.r2, .r3, .r4, .r5, .r6, .r7, .r8, .r9, .rT, .rJ, .rQ, .rK, .rA]).map
      fun rank => ⟨rank, suit⟩

/-- One Fisher-Yates exchange `[l[i], l[j]] = [l[j], l[i]]` on the copied array. -/
def swapIdx (l : List Card) (i j : Nat) : List Card :=
  let vi := l.getD i ⟨.r2, .h⟩
  let vj := l.getD j ⟨.r2, .h⟩
  (l.set i vj).set j vi

/-- The loop of `CardManager.shuffleDeck`: for `i` from `length - 1` down to `1`,
swap position `i` with position `rand i`, where `rand i` models
`crypto.randomInt(0, i + 1)` and hence satisfies `rand i ≤ i`. -/
def fyFrom (rand : Nat → Nat) : List Card → Nat → List Card
  | l, 0 => l
  | l, i + 1 => fyFrom rand (swapIdx l (i + 1) (rand (i + 1))) i

/-- `CardManager.shuffleDeck`: the body first copies the input
(`const shuffled = [...deck]`) and then performs the in-place Fisher-Yates loop on
the copy only; the result is the pair (input array after the call, returned array). -/
def shuffleDeck (deck : List Card) (rand : Nat → Nat) : List Card × List Card :=
  let shuffled := deck
  (deck, fyFrom rand shuffled (deck.length - 1))

/-!
HandEvaluator (`HandEvaluator.ts`): best five-of-seven evaluation with
tiebreakers.  JavaScript numeric `sort` calls are rendered by an insertion
sort, which computes the same result because the comparators used are total.
-/

/-- Insertion step for `sortByB`: place `a` before the first element `b`
with `le a b`. -/
def insertLe {α : Type} (le : α → α → Bool) (a : α) : List α → List α
  | [] => [a]
  | b :: bs => if le a b then a :: b :: bs else b :: insertLe le a bs

/-- Insertion sort by a boolean comparator, modelling JavaScript `Array.sort`
(the comparators used in the source are total orders on the sort keys, so the
result does not depend on the sorting algorithm). -/
def sortByB {α : Type} (le : α → α → Bool) (l : List α) : List α :=
  l.foldr (insertLe le) []

/-- `HandEvaluator.isFlush`: all five cards share the suit of the first card. -/
def isFlush (cards : List Card) : Bool :=
  let suit := (cards.headD ⟨.r2, .h⟩).suit
  cards.all fun c => c.suit = suit

/-- The consecutive-values loop of `HandEvaluator.getStraightValue`. -/
def consecValues : List Nat → Bool
  | [] => true
  | [_] => true
  | a :: b :: t => (b == a + 1) && consecValues (b :: t)

/-- `HandEvaluator.getStraightValue`: the top value of a straight formed by the
five cards, with the wheel A-2-3-4-5 valued 5, and 0 when not a straight. -/
def getStraightValue (cards : List Card) : Nat :=
  let values := sortByB (fun a b => a ≤ b) (cards.map fun c => rankValue c.rank)
  if consecValues values then values.getD 4 0
  else
    if values.contains 14 && values.contains 2 && values.contains 3 &&
        values.contains 4 && values.contains 5 then 5
    else 0

/-- `HandEvaluator.getRankCounts`: pairs (value, count) of the distinct rank
values among the cards, sorted by count descending then value descending. -/
def getRankCounts (cards : List Card) : List (Nat × Nat) :=
  let values := cards.map fun c => rankValue c.rank
  let entries := values.dedup.map fun v => (v, values.count v)
  sortByB (fun a b => if a.2 = b.2 then decide (b.1 ≤ a.1) else decide (b.2 < a.2)) entries

/-- Body of `HandEvaluator.evaluate5CardHand` (after its length guard): the
category tests in source order with their name strings and tiebreakers.  The
`getD` defaults render the source's non-null assertions, which cannot fire on
five-card inputs. -/
def evaluate5 (cards : List Card) : HandRank :=
  let flush := isFlush cards
  let straightValue := getStraightValue cards
  let rankCounts := getRankCounts cards
  if flush && decide (0 < straightValue) then
    ⟨8, "Straight Flush", [straightValue]⟩
  else if rankCounts.any fun c => c.2 == 4 then
    let fourKind := (rankCounts.find? fun c => c.2 == 4).getD (0, 0)
    let kicker := (rankCounts.find? fun c => c.2 == 1).getD (0, 0)
    ⟨7, "Four of a Kind", [fourKind.1, kicker.1]⟩
  else if (rankCounts.any fun c => c.2 == 3) && (rankCounts.any fun c => c.2 == 2) then
    let threeKind := (rankCounts.find? fun c => c.2 == 3).getD (0, 0)
    let pair := (rankCounts.find? fun c => c.2 == 2).getD (0, 0)
    ⟨6, "Full House", [threeKind.1, pair.1]⟩
  else if flush then
    ⟨5, "Flush", sortByB (fun a b => b ≤ a) (cards.map fun c => rankValue c.rank)⟩
  else if 0 < straightValue then
    ⟨4, "Straight", [straightValue]⟩
  else if rankCounts.any fun c => c.2 == 3 then
    let threeKind := (rankCounts.find? fun c => c.2 == 3).getD (0, 0)
    let kickers := sortByB (fun a b => b ≤ a) ((rankCounts.filter fun c => c.2 == 1).map (·.1))
    ⟨3, "Three of a Kind", threeKind.1 :: kickers⟩
  else
    let pairs := rankCounts.filter fun c => c.2 == 2
    if pairs.length = 2 then
      let sortedPairs := sortByB (fun a b => decide (b.1 ≤ a.1)) pairs
      let kicker := (rankCounts.find? fun c => c.2 == 1).getD (0, 0)
      ⟨2, "Two Pair", [(sortedPairs.getD 0 (0, 0)).1, (sortedPairs.getD 1 (0, 0)).1, kicker.1]⟩
    else if pairs.length = 1 then
      let pair := pairs.getD 0 (0, 0)
      let kickers := sortByB (fun a b => b ≤ a) ((rankCounts.filter fun c => c.2 == 1).map (·.1))
      ⟨1, "Pair", pair.1 :: kickers⟩
    else
      ⟨0, "High Card", sortByB (fun a b => b ≤ a) (cards.map fun c => rankValue c.rank)⟩

/-- `HandEvaluator.evaluate5CardHand`: throws unless given exactly five cards. -/
def evaluate5CardHand (cards : List Card) : Except String HandRank :=
  if cards.length ≠ 5 then
    .error ("Expected 5 cards, got " ++ toString cards.length)
  else
    .ok (evaluate5 cards)

/-- The tail of the tiebreaker loop of `HandEvaluator.compareHands` once the
first list is exhausted: every remaining entry of the second list is compared
against 0. -/
def compareTieNil : List Nat → Int
  | [] => 0
  | b :: bs => if 0 < b then -1 else compareTieNil bs

/-- The tiebreaker loop of `HandEvaluator.compareHands`: indices run to the
longer length with missing entries read as 0 (`tiebreakers[i] || 0`). -/
def compareTie : List Nat → List Nat → Int
  | [], b => compareTieNil b
  | a :: as, [] => if 0 < a then 1 else compareTie as []
  | a :: as, b :: bs => if b < a then 1 else if a < b then -1 else compareTie as bs

/-- `HandEvaluator.compareHands`: category first, then tiebreakers
lexicographically; 1 when the first hand is better, -1 when worse, 0 on a tie. -/
def compareHands (hand1 hand2 : HandRank) : Int :=
  if hand2.rank < hand1.rank then 1
  else if hand1.rank < hand2.rank then -1
  else compareTie hand1.tiebreakers hand2.tiebreakers

/-- `HandEvaluator.getCombinations`: all k-element sublists, first-element
branch before the rest, exactly as the source recursion. -/
def getCombinations {α : Type} : List α → Nat → List (List α)
  | _, 0 => [[]]
  | [], _ + 1 => []
  | a :: rest, k + 1 =>
    (getCombinations rest k).map (a :: ·) ++ getCombinations rest (k + 1)

/-- One step of the best-hand fold of `HandEvaluator.evaluateHand`:
`bestHand` starts null and is replaced whenever a combination compares
strictly greater. -/
def bestStep (best : Option HandRank) (hand : HandRank) : Option HandRank :=
  match best with
  | none => some hand
  | some b => if 0 < compareHands hand b then some hand else some b

/-- The best-hand fold of `HandEvaluator.evaluateHand`. -/
def bestOf (hands : List HandRank) : Option HandRank :=
  hands.foldl bestStep none

/-- `HandEvaluator.evaluateHand`: throws unless hole plus board is exactly seven
cards, then returns the maximum of `evaluate5` over all 5-card combinations.
Each combination has exactly five cards (`getCombinations_mem_length`), so the
length guard of `evaluate5CardHand` never fires on them. -/
def evaluateHand (holeCards : Card × Card) (boardCards : List Card) : Except String HandRank :=
  let allCards := holeCards.1 :: holeCards.2 :: boardCards
  if allCards.length ≠ 7 then
    .error ("Expected 7 cards, got " ++ toString allCards.length)
  else
    match bestOf ((getCombinations allCards 5).map evaluate5) with
    | some best => .ok best
    | none => .error "Expected 7 cards, got 0"

/-- `HandEvaluator.findWinners`: players that are not folded and hold cards;
one remaining player wins outright, otherwise all hands are evaluated, the
best is found by a left fold from the first, and every player tying with it
is a winner. -/
def findWinners (players : List PlayerState) (boardCards : List Card) :
    Except String (List Nat) :=
  let activePlayers := players.filter fun p => !p.isFolded && p.holeCards.isSome
  match activePlayers with
  | [] => .ok []
  | [p] => .ok [p.userId]
  | _ => do
    let evaluated ← activePlayers.mapM fun p =>
      match p.holeCards with
      | some hc => do
        let hand ← evaluateHand hc boardCards
        pure (p.userId, hand)
      | none => .error "player without hole cards"
    match evaluated with
    | [] => .ok []
    | e :: es =>
      let bestHand := es.foldl (fun b x => if 0 < compareHands x.2 b then x.2 else b) e.2
      .ok ((evaluated.filter fun x => compareHands x.2 bestHand == 0).map (·.1))

/-!
PotManager (`PotManager.ts`): side-pot partition from per-player bets and
chip distribution to winners.  `Math.floor(pot / n)` is `Int.fdiv` and the
JavaScript remainder `pot % n` is `Int.tmod`.
-/

/-- A side pot with its amount and the userIds eligible to win it
(`PotManager.PotInfo`). -/
structure PotInfo where
  amount : Int
  eligiblePlayers : List Nat
deriving DecidableEq, Repr

/-- `PotManager.calculatePot`: the sum of all players' `currentBet`. -/
def calculatePot (players : List PlayerState) : Int :=
  players.foldl (fun total p => total + p.currentBet) 0

/-- The bet-level loop of `PotManager.calculateSidePots`: for each level, the
eligible players are the non-folded ones who bet at least the level; a level
with no eligible players is skipped without updating `previousBetLevel`
(the source's `continue`). -/
def sidePotsGo (players : List PlayerState) : List Int → Int → List PotInfo
  | [], _ => []
  | betLevel :: rest, previousBetLevel =>
    let eligiblePlayers :=
      (players.filter fun p => decide (betLevel ≤ p.currentBet) && !p.isFolded).map (·.userId)
    if eligiblePlayers.isEmpty then
      sidePotsGo players rest previousBetLevel
    else
      let contributionPerPlayer := betLevel - previousBetLevel
      let playersAtThisLevel := (players.filter fun p => decide (betLevel ≤ p.currentBet)).length
      let potAmount := contributionPerPlayer * playersAtThisLevel
      if 0 < potAmount then
        ⟨potAmount, eligiblePlayers⟩ :: sidePotsGo players rest betLevel
      else
        sidePotsGo players rest betLevel

/-- `PotManager.calculateSidePots`: the distinct positive bet levels in
ascending order, each producing a pot of (level - previous level) times the
number of players who bet at least the level. -/
def calculateSidePots (players : List PlayerState) : List PotInfo :=
  let bettingPlayers := players.filter fun p => decide (0 < p.currentBet)
  if bettingPlayers.isEmpty then []
  else
    let betLevels := sortByB (fun a b => a ≤ b) (bettingPlayers.map (·.currentBet)).dedup
    sidePotsGo players betLevels 0

/-- Add `amt` chips to the stack of player `uid` (`player.stack += winnings`). -/
def creditStack (players : List PlayerState) (uid : Nat) (amt : Int) : List PlayerState :=
  players.map fun p => if p.userId = uid then { p with stack := p.stack + amt } else p

/-- Whether the players map has an entry for `uid` (`players.get(userId)`). -/
def hasPlayer (players : List PlayerState) (uid : Nat) : Bool :=
  players.any fun p => p.userId == uid

/-- The winner loop of `PotManager.distributePot`: the winner at index 0
receives `amountPerWinner + remainder`, every later winner receives
`amountPerWinner`; a missing player throws. -/
def awardWinners (amountPerWinner remainder : Int) :
    List Nat → Nat → List PlayerState → Except String (List PlayerState)
  | [], _, players => .ok players
  | userId :: rest, index, players =>
    if hasPlayer players userId then
      awardWinners amountPerWinner remainder rest (index + 1)
        (creditStack players userId
          (if index = 0 then amountPerWinner + remainder else amountPerWinner))
    else .error "Cannot distribute pot: player not found"

/-- `PotManager.distributePot`: split `pot` as `floor(pot / |winners|)` per
winner with the whole remainder going to the first winner in the list. -/
def distributePot (pot : Int) (winners : List Nat) (players : List PlayerState) :
    Except String (List PlayerState) :=
  if winners.isEmpty then .error "Cannot distribute pot: no winners specified"
  else
    awardWinners (Int.fdiv pot winners.length) (Int.tmod pot winners.length) winners 0 players

/-- `PotManager.distributeSidePots`: each pot is given to the members of the
(global) `winners` list that are eligible for it; a pot whose eligible players
contain no member of `winners` is skipped entirely. -/
def distributeSidePots (sidePots : List PotInfo) (winners : List Nat)
    (players : List PlayerState) : Except String (List PlayerState) :=
  match sidePots with
  | [] => .ok players
  | pot :: rest =>
    let eligibleWinners := winners.filter fun w => pot.eligiblePlayers.contains w
    if eligibleWinners.isEmpty then
      distributeSidePots rest winners players
    else
      match distributePot pot.amount eligibleWinners players with
      | .ok players2 => distributeSidePots rest winners players2
      | .error e => .error e

/-- Sum of the stacks of all players. -/
def sumStacks (players : List PlayerState) : Int :=
  (players.map (·.stack)).sum

/-!
PokerGameEngine (`PokerGameEngine.ts`): the stack-mutating portion of
`determineWinner`, the raise branch of `handlePlayerAction`, the dealer/blind
rotation of `prepareNextHand`, and the hole-card fan-out of `startHand`.
-/

/-- The stack-mutating portion of `PokerGameEngine.determineWinner`: with no
active player the engine logs and returns (stacks unchanged); a single active
player receives the whole pot; otherwise the winners are computed once by
`findWinners` over the active players, and the side pots (when any) or the
whole pot are distributed to them. -/
def showdownDistribute (players : List PlayerState) (boardCards : List Card) (pot : Int) :
    Except String (List PlayerState) :=
  let activePlayers := players.filter fun p => p.isActive && !p.isFolded
  match activePlayers with
  | [] => .ok players
  | [winner] => .ok (creditStack players winner.userId pot)
  | _ =>
    match findWinners activePlayers boardCards with
    | .error e => .error e
    | .ok winnerIds =>
      if winnerIds.isEmpty then .ok players
      else
        let sidePots := calculateSidePots players
        if sidePots.isEmpty then distributePot pot winnerIds players
        else distributeSidePots sidePots winnerIds players

/-- Result of the raise branch of `PokerGameEngine.handlePlayerAction`: the
updated table `currentBet` and `pot`, the acting player, the other players
(whose `hasActed` is reset), and the persisted action type. -/
structure RaiseOutcome where
  currentBet : Int
  pot : Int
  player : PlayerState
  others : List PlayerState
  actionType : String
deriving DecidableEq, Repr

/-- The `case 'raise'` branch of `PokerGameEngine.handlePlayerAction` (lines
347-377): rejected with `Raise amount too low` when the amount is absent,
zero (falsy) or below `currentBet * 2`; when the amount exceeds the stack the
action is converted to an all-in of the whole stack (leaving the table
`currentBet` unchanged); otherwise the player commits `amount - currentBet`,
the table `currentBet` becomes `amount`, and every other non-folded player's
`hasActed` is reset. -/
def raiseCase (currentBet pot : Int) (player : PlayerState) (others : List PlayerState)
    (amount : Option Int) : Except String RaiseOutcome :=
  match amount with
  | none => .error "Raise amount too low"
  | some amt =>
    if amt = 0 ∨ amt < currentBet * 2 then .error "Raise amount too low"
    else
      let raiseAmount := amt - player.currentBet
      let resetOthers := others.map fun p =>
        if p.userId != player.userId && !p.isFolded then { p with hasActed := false } else p
      if player.stack < raiseAmount then
        let player2 : PlayerState :=
          { player with
              stack := 0
              currentBet := player.currentBet + player.stack
              hasActed := true }
        .ok ⟨currentBet, pot + player.stack, player2, resetOthers, "all_in"⟩
      else
        let player2 : PlayerState :=
          { player with
              stack := player.stack - raiseAmount
              currentBet := amt
              hasActed := true }
        .ok ⟨amt, pot + raiseAmount, player2, resetOthers, "raise"⟩

/-- Modelled from the spec (the source has no `minRaise` state): a Raise to a
total of `amt` is legal iff `amt ≥ currentBet + minRaise` and
`amt − committedThisStreet ≤ stack`. -/
def specRaiseLegal (currentBet minRaise committedThisStreet stack amt : Int) : Prop :=
  currentBet + minRaise ≤ amt ∧ amt - committedThisStreet ≤ stack

instance (currentBet minRaise committedThisStreet stack amt : Int) :
    Decidable (specRaiseLegal currentBet minRaise committedThisStreet stack amt) :=
  inferInstanceAs (Decidable (_ ∧ _))

/-- The dealer-advance loop of `PokerGameEngine.prepareNextHand`: the first
active position greater than the current dealer, wrapping to the first
active position. -/
def rotateDealerPos (activePositions : List Nat) (dealerPosition : Nat) : Nat :=
  match activePositions.find? fun p => decide (dealerPosition < p) with
  | some p => p
  | none => activePositions.headD 0

/-- The blind computation of `PokerGameEngine.prepareNextHand`: indices
`dealerIndex + 1` and `dealerIndex + 2` modulo the number of active
positions. -/
def blindPositionsAfter (activePositions : List Nat) (newDealerPos : Nat) : Nat × Nat :=
  let dealerIndex := activePositions.indexOf newDealerPos
  let smallBlindIndex := (dealerIndex + 1) % activePositions.length
  let bigBlindIndex := (dealerIndex + 2) % activePositions.length
  (activePositions.getD smallBlindIndex 0, activePositions.getD bigBlindIndex 0)

/-- The rotation step of `PokerGameEngine.prepareNextHand`: players with empty
stacks are eliminated, the dealer advances to the next active position, and
the blinds are the next one and two active positions clockwise of the new
dealer (with no heads-up special case). -/
def prepareRotation (players : List PlayerState) (dealerPosition : Nat) : Nat × Nat × Nat :=
  let marked := players.map fun p => if p.stack = 0 then { p with isActive := false } else p
  let activePositions :=
    sortByB (fun a b => a ≤ b) ((marked.filter (·.isActive)).map (·.position))
  let newDealer := rotateDealerPos activePositions dealerPosition
  let blinds := blindPositionsAfter activePositions newDealer
  (newDealer, blinds.1, blinds.2)

/-- Modelled from the spec: the next seat clockwise of `pos` among the sorted
active positions is the smallest position greater than `pos`, wrapping around
to the smallest position. -/
def specNextClockwise (positions : List Nat) (pos : Nat) : Nat :=
  match positions.find? fun p => decide (pos < p) with
  | some p => p
  | none => positions.headD 0

/-- The hole-card events of `PokerGameEngine.startHand` (lines 234-245): one
`game:cards:dealt` payload (owner userId, both hole cards) per dealt player. -/
def holeCardEvents (players : List PlayerState) : List (Nat × Card × Card) :=
  players.filterMap fun p => p.holeCards.map fun hc => (p.userId, hc.1, hc.2)

/-- Delivery of those events: each is emitted with `io.to(room)`, so every
member of the room receives every payload; an entry `(m, u, c1, c2)` means
the sockets of user `m` receive the hole cards `c1 c2` of user `u`. -/
def holeCardDeliveries (roomMembers : List Nat) (players : List PlayerState) :
    List (Nat × Nat × Card × Card) :=
  (holeCardEvents players).flatMap fun e => roomMembers.map fun m => (m, e)

/-- The stack of player `uid` in the list (0 when absent); the observation
used to state the distribution theorems. -/
def stackOf (players : List PlayerState) (uid : Nat) : Int :=
  match players.find? fun p => p.userId == uid with
  | some p => p.stack
  | none => 0

/-!
Concrete inputs used by counterexample and witness theorems.
-/

/-- S3-shaped showdown, player A: all-in for 100 holding pocket aces. -/
def sc3A : PlayerState := ⟨1, "A", 0, 0, 100, some (⟨.rA, .c⟩, ⟨.rA, .s⟩), true, false, true⟩

/-- S3-shaped showdown, player B: committed 500 holding pocket kings. -/
def sc3B : PlayerState := ⟨2, "B", 1, 0, 500, some (⟨.rK, .c⟩, ⟨.rK, .s⟩), true, false, true⟩

/-- S3-shaped showdown, player C: committed 500 holding pocket queens. -/
def sc3C : PlayerState := ⟨3, "C", 2, 0, 500, some (⟨.rQ, .c⟩, ⟨.rQ, .s⟩), true, false, true⟩

/-- A dry five-card board: no flush, no straight, no pair on board. -/
def scBoard : List Card := [⟨.r2, .h⟩, ⟨.r5, .d⟩, ⟨.r7, .c⟩, ⟨.r9, .s⟩, ⟨.rJ, .d⟩]

/-- Heads-up showdown: player 1 bet 50 on the river holding aces; of the
240-chip pot, 140 chips were committed on earlier streets. -/
def huP1 : PlayerState := ⟨1, "A", 0, 1380, 50, some (⟨.rA, .c⟩, ⟨.rA, .s⟩), true, false, true⟩

/-- Heads-up showdown: player 2 bet 50 on the river holding kings. -/
def huP2 : PlayerState := ⟨2, "B", 1, 1380, 50, some (⟨.rK, .c⟩, ⟨.rK, .s⟩), true, false, true⟩

/-- Three players with stacks of 10 about to split a pot. -/
def scW : List PlayerState :=
  [⟨1, "w1", 0, 10, 0, none, true, false, false⟩,
   ⟨2, "w2", 1, 10, 0, none, true, false, false⟩,
   ⟨3, "w3", 2, 10, 0, none, true, false, false⟩]

/-- The small blind of scenario S6 after calling: committed 20, stack 1480. -/
def scSb : PlayerState := ⟨1, "sb", 0, 1480, 20, none, true, false, true⟩

/-- A player with a 100-chip stack and nothing committed this street. -/
def scQ : PlayerState := ⟨2, "x", 1, 100, 0, none, true, false, false⟩

/-- Two live players at positions 0 and 1 (heads-up table). -/
def scHU : List PlayerState :=
  [⟨1, "a", 0, 100, 0, none, true, false, false⟩,
   ⟨2, "b", 1, 200, 0, none, true, false, false⟩]

/-- Two connected users in a room; user 1 holds ace-king of hearts. -/
def scRoom : List PlayerState :=
  [⟨1, "u1", 0, 1480, 20, some (⟨.rA, .h⟩, ⟨.rK, .h⟩), true, false, false⟩,
   ⟨2, "u2", 1, 1480, 20, some (⟨.r2, .c⟩, ⟨.r2, .d⟩), true, false, false⟩]

/-!
Lemmas and theorems about `CardManager`.
-/

set_option maxHeartbeats 2000000 in
lemma cardToString_roundtrip (c : Card) : stringToCard (cardToString c) = .ok c := by
  obtain ⟨r, su⟩ := c
  cases r <;> cases su <;> rfl

set_option maxHeartbeats 1000000 in
lemma charToRank_rankChar (ch : Char) (rk : Rank) (h : charToRank ch = some rk) :
    rankChar rk = ch := by
  unfold charToRank at h
  by_cases e1 : ch = '2'
  · rw [if_pos e1] at h; cases Option.some.inj h; rw [e1]; rfl
  rw [if_neg e1] at h
  by_cases e2 : ch = '3'
  · rw [if_pos e2] at h; cases Option.some.inj h; rw [e2]; rfl
  rw [if_neg e2] at h
  by_cases e3 : ch = '4'
  · rw [if_pos e3] at h; cases Option.some.inj h; rw [e3]; rfl
  rw [if_neg e3] at h
  by_cases e4 : ch = '5'
  · rw [if_pos e4] at h; cases Option.some.inj h; rw [e4]; rfl
  rw [if_neg e4] at h
  by_cases e5 : ch = '6'
  · rw [if_pos e5] at h; cases Option.some.inj h; rw [e5]; rfl
  rw [if_neg e5] at h
  by_cases e6 : ch = '7'
  · rw [if_pos e6] at h; cases Option.some.inj h; rw [e6]; rfl
  rw [if_neg e6] at h
  by_cases e7 : ch = '8'
  · rw [if_pos e7] at h; cases Option.some.inj h; rw [e7]; rfl
  rw [if_neg e7] at h
  by_cases e8 : ch = '9'
  · rw [if_pos e8] at h; cases Option.some.inj h; rw [e8]; rfl
  rw [if_neg e8] at h
  by_cases e9 : ch = 'T'
  · rw [if_pos e9] at h; cases Option.some.inj h; rw [e9]; rfl
  rw [if_neg e9] at h
  by_cases e10 : ch = 'J'
  · rw [if_pos e10] at h; cases Option.some.inj h; rw [e10]; rfl
  rw [if_neg e10] at h
  by_cases e11 : ch = 'Q'
  · rw [if_pos e11] at h; cases Option.some.inj h; rw [e11]; rfl
  rw [if_neg e11] at h
  by_cases e12 : ch = 'K'
  · rw [if_pos e12] at h; cases Option.some.inj h; rw [e12]; rfl
  rw [if_neg e12] at h
  by_cases e13 : ch = 'A'
  · rw [if_pos e13] at h; cases Option.some.inj h; rw [e13]; rfl
  rw [if_neg e13] at h
  exact Option.noConfusion h

set_option maxHeartbeats 1000000 in
lemma charToSuit_suitChar (ch : Char) (st : Suit) (h : charToSuit ch = some st) :
    suitChar st = ch := by
  unfold charToSuit at h
  by_cases e1 : ch = 'h'
  · rw [if_pos e1] at h; cases Option.some.inj h; rw [e1]; rfl
  rw [if_neg e1] at h
  by_cases e2 : ch = 'd'
  · rw [if_pos e2] at h; cases Option.some.inj h; rw [e2]; rfl
  rw [if_neg e2] at h
  by_cases e3 : ch = 'c'
  · rw [if_pos e3] at h; cases Option.some.inj h; rw [e3]; rfl
  rw [if_neg e3] at h
  by_cases e4 : ch = 's'
  · rw [if_pos e4] at h; cases Option.some.inj h; rw [e4]; rfl
  rw [if_neg e4] at h
  exact Option.noConfusion h

/-- C9: for every card with a valid rank and suit, `stringToCard` inverts
`cardToString` (the round trip returns the original card), and `stringToCard`
accepts exactly the strings that are the two-character form of some card,
rejecting every other string. -/
theorem stringToCard_cardToString_inverse :
    (∀ c : Card, stringToCard (cardToString c) = .ok c) ∧
    (∀ s : List Char, (stringToCard s).isOk = true ↔ ∃ c : Card, s = cardToString c) := by
  refine ⟨cardToString_roundtrip, fun s => ⟨fun h => ?_, fun ⟨c, hc⟩ => ?_⟩⟩
  · match s with
    | [] => simp [stringToCard, Except.isOk, Except.toBool] at h
    | [a] => simp [stringToCard, Except.isOk, Except.toBool] at h
    | a :: b :: c :: v => simp [stringToCard, Except.isOk, Except.toBool] at h
    | [a, b] =>
      cases hr : charToRank a with
      | none => simp [stringToCard, hr, Except.isOk, Except.toBool] at h
      | some rk =>
        cases hs : charToSuit b with
        | none => simp [stringToCard, hr, hs, Except.isOk, Except.toBool] at h
        | some st =>
          refine ⟨⟨rk, st⟩, ?_⟩
          show [a, b] = [rankChar rk, suitChar st]
          rw [charToRank_rankChar a rk hr, charToSuit_suitChar b st hs]
  · subst hc
    rw [cardToString_roundtrip c]
    rfl

lemma get_cons_set_perm (t : List Card) (j : Nat) (hj : j < t.length) (x : Card) :
    List.Perm (t.get ⟨j, hj⟩ :: t.set j x) (x :: t) := by
  induction t generalizing j with
  | nil => exact absurd hj (Nat.not_lt_zero j)
  | cons b s ih =>
    cases j with
    | zero => exact List.Perm.swap x b s
    | succ k =>
      have hk : k < s.length := Nat.lt_of_succ_lt_succ hj
      have h1 : List.Perm (s.get ⟨k, hk⟩ :: b :: s.set k x) (b :: s.get ⟨k, hk⟩ :: s.set k x) :=
        List.Perm.swap b _ _
      have h2 : List.Perm (b :: s.get ⟨k, hk⟩ :: s.set k x) (b :: x :: s) :=
        List.Perm.cons b (ih k hk)
      have h3 : List.Perm (b :: x :: s) (x :: b :: s) := List.Perm.swap x b s
      exact (h1.trans h2).trans h3

lemma set_set_get_perm (l : List Card) (i j : Nat) (hi : i < l.length) (hj : j < l.length) :
    List.Perm ((l.set i (l.get ⟨j, hj⟩)).set j (l.get ⟨i, hi⟩)) l := by
  induction l generalizing i j with
  | nil => exact absurd hi (Nat.not_lt_zero i)
  | cons a t ih =>
    cases i with
    | zero =>
      cases j with
      | zero => simp
      | succ k =>
        have hk : k < t.length := Nat.lt_of_succ_lt_succ hj
        simpa using get_cons_set_perm t k hk a
    | succ m =>
      have hm : m < t.length := Nat.lt_of_succ_lt_succ hi
      cases j with
      | zero => simpa using get_cons_set_perm t m hm a
      | succ k =>
        have hk : k < t.length := Nat.lt_of_succ_lt_succ hj
        simpa using List.Perm.cons a (ih m k hm hk)

lemma swapIdx_perm (l : List Card) (i j : Nat) (hi : i < l.length) (hj : j < l.length) :
    List.Perm (swapIdx l i j) l := by
  unfold swapIdx
  rw [List.getD_eq_getElem l _ hi, List.getD_eq_getElem l _ hj]
  exact set_set_get_perm l i j hi hj

lemma swapIdx_length (l : List Card) (i j : Nat) : (swapIdx l i j).length = l.length := by
  simp [swapIdx]

lemma fyFrom_perm (rand : Nat → Nat) (hrand : ∀ k, rand k ≤ k) :
    ∀ (n : Nat) (l : List Card), n < l.length → List.Perm (fyFrom rand l n) l := by
  intro n
  induction n with
  | zero => intro l _; exact List.Perm.refl l
  | succ m ih =>
    intro l hl
    have hj : rand (m + 1) < l.length := Nat.lt_of_le_of_lt (hrand (m + 1)) hl
    have hlen : m < (swapIdx l (m + 1) (rand (m + 1))).length := by
      rw [swapIdx_length]; exact Nat.lt_of_succ_lt hl
    exact List.Perm.trans (ih _ hlen) (swapIdx_perm l (m + 1) (rand (m + 1)) hl hj)

/-- C10: `shuffleDeck` is pure with respect to its argument: the input array is
unchanged by the call (the body mutates only the copy `[...deck]`), and the
returned array holds exactly the same multiset of cards as the input. -/
theorem shuffleDeck_pure (deck : List Card) (rand : Nat → Nat) (hrand : ∀ k, rand k ≤ k) :
    (shuffleDeck deck rand).1 = deck ∧ List.Perm (shuffleDeck deck rand).2 deck := by
  refine ⟨rfl, ?_⟩
  unfold shuffleDeck
  cases deck with
  | nil => exact List.Perm.refl _
  | cons a t =>
    exact fyFrom_perm rand hrand _ _ (Nat.sub_lt (Nat.succ_pos _) Nat.one_pos)

/-- Witness for C10 at a concrete three-card deck with the random source that
always picks index 0. -/
theorem shuffleDeck_pure_witness :
    (∀ k, (fun _ => 0) k ≤ k) ∧
    ((shuffleDeck [⟨.rA, .s⟩, ⟨.rK, .h⟩, ⟨.r2, .d⟩] (fun _ => 0)).1 =
        [⟨.rA, .s⟩, ⟨.rK, .h⟩, ⟨.r2, .d⟩] ∧
      List.Perm (shuffleDeck [⟨.rA, .s⟩, ⟨.rK, .h⟩, ⟨.r2, .d⟩] (fun _ => 0)).2
        [⟨.rA, .s⟩, ⟨.rK, .h⟩, ⟨.r2, .d⟩]) :=
  ⟨fun k => Nat.zero_le k,
    shuffleDeck_pure [⟨.rA, .s⟩, ⟨.rK, .h⟩, ⟨.r2, .d⟩] (fun _ => 0) (fun k => Nat.zero_le k)⟩

/-!
Order-theoretic lemmas about `compareTie` and `compareHands`: the comparator
is reflexive, antisymmetric in sign, and transitive on the nonnegative side,
because it compares the zero-padded tiebreaker sequences lexicographically.
-/

lemma compareTie_refl : ∀ a : List Nat, compareTie a a = 0 := by
  intro a
  induction a with
  | nil => simp [compareTie, compareTieNil, compareTieNil]
  | cons x xs ih => simp [compareTie, compareTieNil, ih]

lemma compareTie_nil_antisym : ∀ b : List Nat, compareTie [] b = -compareTie b [] := by
  intro b
  induction b with
  | nil => simp [compareTie, compareTieNil, compareTieNil]
  | cons y ys ih =>
    by_cases hy : 0 < y
    · simp [compareTie, compareTieNil, hy]
    · have ih2 : compareTieNil ys = -compareTie ys [] := by
        rw [← ih]
        simp [compareTie, compareTieNil]
      simp [compareTie, compareTieNil, hy, ih2]

lemma compareTie_antisym : ∀ a b : List Nat, compareTie a b = -compareTie b a := by
  intro a
  induction a with
  | nil => exact compareTie_nil_antisym
  | cons x xs ih =>
    intro b
    cases b with
    | nil =>
      by_cases hx : 0 < x
      · simp [compareTie, compareTieNil, hx]
      · simp [compareTie, compareTieNil, hx, ih []]
    | cons y ys =>
      rcases Nat.lt_trichotomy x y with h | h | h
      · simp [compareTie, compareTieNil, h, Nat.lt_asymm h]
      · subst h
        simp [compareTie, compareTieNil, Nat.lt_irrefl, ih ys]
      · simp [compareTie, compareTieNil, h, Nat.lt_asymm h]

lemma compareTie_pad_right : ∀ a b : List Nat, compareTie (a ++ [0]) b = compareTie a b := by
  intro a
  induction a with
  | nil =>
    intro b
    cases b with
    | nil => simp [compareTie, compareTieNil, compareTieNil]
    | cons y ys =>
      by_cases hy : 0 < y
      · simp [compareTie, compareTieNil, hy, Nat.not_lt_zero]
      · simp [compareTie, compareTieNil, hy, Nat.not_lt_zero]
  | cons x xs ih =>
    intro b
    cases b with
    | nil =>
      by_cases hx : 0 < x
      · simp [compareTie, compareTieNil, hx]
      · simp [compareTie, compareTieNil, hx, ih []]
    | cons y ys =>
      rcases Nat.lt_trichotomy x y with h | h | h
      · simp [compareTie, compareTieNil, h, Nat.lt_asymm h]
      · subst h
        simp [compareTie, compareTieNil, Nat.lt_irrefl, ih ys]
      · simp [compareTie, compareTieNil, h, Nat.lt_asymm h]

lemma compareTie_pad_left (a b : List Nat) : compareTie a (b ++ [0]) = compareTie a b := by
  rw [compareTie_antisym a (b ++ [0]), compareTie_pad_right, ← compareTie_antisym]

lemma compareTie_padR : ∀ (k : Nat) (a b : List Nat),
    compareTie (a ++ List.replicate k 0) b = compareTie a b := by
  intro k
  induction k with
  | zero => intro a b; simp
  | succ m ih =>
    intro a b
    have : a ++ List.replicate (m + 1) 0 = (a ++ [0]) ++ List.replicate m 0 := by
      rw [List.replicate_succ, List.append_cons]
    rw [this, ih, compareTie_pad_right]

lemma compareTie_padL (k : Nat) (a b : List Nat) :
    compareTie a (b ++ List.replicate k 0) = compareTie a b := by
  rw [compareTie_antisym a _, compareTie_padR, ← compareTie_antisym]

lemma compareTie_trans_eqlen : ∀ a b c : List Nat, a.length = b.length →
    b.length = c.length → 0 ≤ compareTie a b → 0 ≤ compareTie b c →
    0 ≤ compareTie a c := by
  intro a
  induction a with
  | nil =>
    intro b c hab hbc _ _
    have hb : b = [] := List.length_eq_zero.mp hab.symm
    have hc : c = [] := List.length_eq_zero.mp (hb ▸ hbc).symm
    subst hc
    simp [compareTie, compareTieNil, compareTieNil]
  | cons x xs ih =>
    intro b c hab hbc h1 h2
    cases b with
    | nil => simp at hab
    | cons y ys =>
      cases c with
      | nil => simp at hbc
      | cons z zs =>
        simp only [compareTie] at h1 h2 ⊢
        by_cases hyx : y < x
        · have hzy : ¬ y < z := by
            intro hc
            rw [if_neg (by omega), if_pos hc] at h2
            omega
          rw [if_pos (by omega)]
          omega
        · have hxy : ¬ x < y := by
            intro hc
            rw [if_neg hyx, if_pos hc] at h1
            omega
          have h1' : 0 ≤ compareTie xs ys := by rwa [if_neg hyx, if_neg hxy] at h1
          by_cases hzy : z < y
          · rw [if_pos (by omega)]
            omega
          · have hyz : ¬ y < z := by
              intro hc
              rw [if_neg hzy, if_pos hc] at h2
              omega
            have h2' : 0 ≤ compareTie ys zs := by rwa [if_neg hzy, if_neg hyz] at h2
            rw [if_neg (by omega), if_neg (by omega)]
            exact ih ys zs (by simpa using hab) (by simpa using hbc) h1' h2'

lemma compareTie_trans (a b c : List Nat) (h1 : 0 ≤ compareTie a b)
    (h2 : 0 ≤ compareTie b c) : 0 ≤ compareTie a c := by
  let n := max (max a.length b.length) c.length
  have hna : a.length ≤ n := le_trans (le_max_left _ _) (le_max_left _ _)
  have hnb : b.length ≤ n := le_trans (le_max_right _ _) (le_max_left _ _)
  have hnc : c.length ≤ n := le_max_right _ _
  have la : (a ++ List.replicate (n - a.length) 0).length = n := by
    simp [Nat.add_sub_cancel' hna]
  have lb : (b ++ List.replicate (n - b.length) 0).length = n := by
    simp [Nat.add_sub_cancel' hnb]
  have lc : (c ++ List.replicate (n - c.length) 0).length = n := by
    simp [Nat.add_sub_cancel' hnc]
  have e1 : compareTie (a ++ List.replicate (n - a.length) 0)
      (b ++ List.replicate (n - b.length) 0) = compareTie a b := by
    rw [compareTie_padR, compareTie_padL]
  have e2 : compareTie (b ++ List.replicate (n - b.length) 0)
      (c ++ List.replicate (n - c.length) 0) = compareTie b c := by
    rw [compareTie_padR, compareTie_padL]
  have e3 : compareTie (a ++ List.replicate (n - a.length) 0)
      (c ++ List.replicate (n - c.length) 0) = compareTie a c := by
    rw [compareTie_padR, compareTie_padL]
  rw [← e3]
  exact compareTie_trans_eqlen _ _ _ (la.trans lb.symm) (lb.trans lc.symm)
    (e1.symm ▸ h1) (e2.symm ▸ h2)

lemma compareHands_self (h : HandRank) : compareHands h h = 0 := by
  simp [compareHands, compareTie_refl]

lemma compareHands_antisym (a b : HandRank) : compareHands a b = -compareHands b a := by
  unfold compareHands
  rcases Nat.lt_trichotomy a.rank b.rank with h | h | h
  · simp [h, Nat.lt_asymm h]
  · simp [h, Nat.lt_irrefl, compareTie_antisym a.tiebreakers b.tiebreakers]
  · simp [h, Nat.lt_asymm h]

lemma compareHands_trans (a b c : HandRank) (h1 : 0 ≤ compareHands a b)
    (h2 : 0 ≤ compareHands b c) : 0 ≤ compareHands a c := by
  unfold compareHands at h1 h2 ⊢
  by_cases hcb : c.rank < b.rank
  · by_cases hba : b.rank < a.rank
    · rw [if_pos (by omega)]; omega
    · have hab : ¬ a.rank < b.rank := by
        intro hcon
        rw [if_neg hba, if_pos hcon] at h1
        omega
      rw [if_pos (by omega)]; omega
  · have hbc : ¬ b.rank < c.rank := by
      intro hcon
      rw [if_neg hcb, if_pos hcon] at h2
      omega
    have h2' : 0 ≤ compareTie b.tiebreakers c.tiebreakers := by
      rwa [if_neg hcb, if_neg hbc] at h2
    by_cases hba : b.rank < a.rank
    · rw [if_pos (by omega)]; omega
    · have hab : ¬ a.rank < b.rank := by
        intro hcon
        rw [if_neg hba, if_pos hcon] at h1
        omega
      have h1' : 0 ≤ compareTie a.tiebreakers b.tiebreakers := by
        rwa [if_neg hba, if_neg hab] at h1
      rw [if_neg (by omega), if_neg (by omega)]
      exact compareTie_trans _ _ _ h1' h2'

lemma compareHands_nonneg_of_not_pos (a b : HandRank) (h : ¬ 0 < compareHands a b) :
    0 ≤ compareHands b a := by
  rw [compareHands_antisym b a]
  omega

/-!
The best-hand fold returns an element of the list that no element of the list
beats, and `getCombinations` produces exactly the `choose`-many k-card hands.
-/

lemma bestOf_go : ∀ (l : List HandRank) (b : HandRank),
    ∃ h, List.foldl bestStep (some b) l = some h ∧ (h = b ∨ h ∈ l) ∧
      0 ≤ compareHands h b ∧ ∀ x ∈ l, compareHands x h ≤ 0 := by
  intro l
  induction l with
  | nil =>
    intro b
    refine ⟨b, rfl, Or.inl rfl, by rw [compareHands_self], by intro x hx; cases hx⟩
  | cons a l ih =>
    intro b
    by_cases hab : 0 < compareHands a b
    · have hstep : bestStep (some b) a = some a := by simp [bestStep, hab]
      obtain ⟨h, hfold, hmem, hge, hall⟩ := ih a
      refine ⟨h, by rw [List.foldl_cons, hstep]; exact hfold, ?_, ?_, ?_⟩
      · rcases hmem with rfl | hm
        · exact Or.inr (List.mem_cons_self _ _)
        · exact Or.inr (List.mem_cons_of_mem _ hm)
      · exact compareHands_trans h a b hge (le_of_lt hab)
      · intro x hx
        rcases List.mem_cons.mp hx with rfl | hm
        · rw [compareHands_antisym]
          omega
        · exact hall x hm
    · have hstep : bestStep (some b) a = some b := by simp [bestStep, hab]
      obtain ⟨h, hfold, hmem, hge, hall⟩ := ih b
      refine ⟨h, by rw [List.foldl_cons, hstep]; exact hfold, ?_, hge, ?_⟩
      · rcases hmem with rfl | hm
        · exact Or.inl rfl
        · exact Or.inr (List.mem_cons_of_mem _ hm)
      · intro x hx
        rcases List.mem_cons.mp hx with rfl | hm
        · have hba : 0 ≤ compareHands b x := compareHands_nonneg_of_not_pos x b hab
          have : 0 ≤ compareHands h x := compareHands_trans h b x hge hba
          rw [compareHands_antisym]
          omega
        · exact hall x hm

lemma bestOf_spec (l : List HandRank) (hl : l ≠ []) :
    ∃ h, bestOf l = some h ∧ h ∈ l ∧ ∀ x ∈ l, compareHands x h ≤ 0 := by
  cases l with
  | nil => exact absurd rfl hl
  | cons a l =>
    obtain ⟨h, hfold, hmem, hge, hall⟩ := bestOf_go l a
    refine ⟨h, ?_, ?_, ?_⟩
    · show List.foldl bestStep (bestStep none a) l = some h
      exact hfold
    · rcases hmem with rfl | hm
      · exact List.mem_cons_self _ _
      · exact List.mem_cons_of_mem _ hm
    · intro x hx
      rcases List.mem_cons.mp hx with rfl | hm
      · rw [compareHands_antisym]
        omega
      · exact hall x hm

lemma getCombinations_mem_length {α : Type} : ∀ (l : List α) (k : Nat) (c : List α),
    c ∈ getCombinations l k → c.length = k := by
  intro l
  induction l with
  | nil =>
    intro k c hc
    cases k with
    | zero => simp [getCombinations] at hc; simp [hc]
    | succ m => simp [getCombinations] at hc
  | cons a rest ih =>
    intro k c hc
    cases k with
    | zero => simp [getCombinations] at hc; simp [hc]
    | succ m =>
      simp only [getCombinations, List.mem_append, List.mem_map] at hc
      rcases hc with ⟨c', hc', rfl⟩ | hc'
      · simp [ih m c' hc']
      · exact ih (m + 1) c hc'

lemma getCombinations_length {α : Type} : ∀ (l : List α) (k : Nat),
    (getCombinations l k).length = Nat.choose l.length k := by
  intro l
  induction l with
  | nil =>
    intro k
    cases k with
    | zero => rfl
    | succ m => rfl
  | cons a rest ih =>
    intro k
    cases k with
    | zero => rfl
    | succ m =>
      simp only [getCombinations, List.length_append, List.length_map, ih,
        List.length_cons, Nat.choose_succ_succ]

/-- C6 counterexample: with a three-card board (five cards in total),
`evaluateHand` does not return a `HandRank` as the claim states; it throws
`Expected 7 cards, got 5`. -/
theorem evaluateHand_requires_seven_cards :
    evaluateHand (⟨.rA, .h⟩, ⟨.rK, .h⟩) [⟨.r2, .c⟩, ⟨.r3, .c⟩, ⟨.r4, .c⟩] =
      .error "Expected 7 cards, got 5" := by
  rfl

/-- C6 amended: `evaluateHand` requires exactly a five-card board (seven cards
in total), throwing `Expected 7 cards` otherwise; on seven cards it returns a
`HandRank` that is one of the `C(7,5) = 21` five-card evaluations and is
maximal among them under `compareHands` (category 0-8 first, then
tiebreakers). -/
theorem evaluateHand_seven_card_max (holeCards : Card × Card) (boardCards : List Card)
    (hb : boardCards.length = 5) :
    ∃ best, evaluateHand holeCards boardCards = .ok best ∧
      best ∈ (getCombinations (holeCards.1 :: holeCards.2 :: boardCards) 5).map evaluate5 ∧
      (∀ hr ∈ (getCombinations (holeCards.1 :: holeCards.2 :: boardCards) 5).map evaluate5,
        compareHands hr best ≤ 0) ∧
      (getCombinations (holeCards.1 :: holeCards.2 :: boardCards) 5).length = 21 := by
  have hlen : (holeCards.1 :: holeCards.2 :: boardCards).length = 7 := by simp [hb]
  have hchoose : (getCombinations (holeCards.1 :: holeCards.2 :: boardCards) 5).length = 21 := by
    rw [getCombinations_length, hlen]
    decide
  have hne : (getCombinations (holeCards.1 :: holeCards.2 :: boardCards) 5).map evaluate5 ≠ [] := by
    intro hcon
    have h21 :
        ((getCombinations (holeCards.1 :: holeCards.2 :: boardCards) 5).map evaluate5).length =
          21 := by
      simp [hchoose]
    rw [hcon] at h21
    simp at h21
  obtain ⟨best, hbo, hmem, hmax⟩ := bestOf_spec _ hne
  refine ⟨best, ?_, hmem, hmax, hchoose⟩
  have hcond : ¬ ((holeCards.1 :: holeCards.2 :: boardCards).length ≠ 7) := by simp [hb]
  simp only [evaluateHand]
  rw [if_neg hcond, hbo]

/-- Witness for C6 amended at a concrete seven-card input. -/
theorem evaluateHand_seven_card_max_witness :
    ∃ best,
      evaluateHand (⟨.rA, .h⟩, ⟨.rK, .d⟩)
          [⟨.r2, .c⟩, ⟨.r5, .d⟩, ⟨.r7, .c⟩, ⟨.r9, .s⟩, ⟨.rJ, .d⟩] = .ok best ∧
      best ∈ (getCombinations
          ([⟨.rA, .h⟩, ⟨.rK, .d⟩, ⟨.r2, .c⟩, ⟨.r5, .d⟩, ⟨.r7, .c⟩, ⟨.r9, .s⟩, ⟨.rJ, .d⟩] :
            List Card) 5).map evaluate5 ∧
      (∀ hr ∈ (getCombinations
          ([⟨.rA, .h⟩, ⟨.rK, .d⟩, ⟨.r2, .c⟩, ⟨.r5, .d⟩, ⟨.r7, .c⟩, ⟨.r9, .s⟩, ⟨.rJ, .d⟩] :
            List Card) 5).map evaluate5, compareHands hr best ≤ 0) ∧
      (getCombinations
          ([⟨.rA, .h⟩, ⟨.rK, .d⟩, ⟨.r2, .c⟩, ⟨.r5, .d⟩, ⟨.r7, .c⟩, ⟨.r9, .s⟩, ⟨.rJ, .d⟩] :
            List Card) 5).length = 21 :=
  evaluateHand_seven_card_max (⟨.rA, .h⟩, ⟨.rK, .d⟩)
    [⟨.r2, .c⟩, ⟨.r5, .d⟩, ⟨.r7, .c⟩, ⟨.r9, .s⟩, ⟨.rJ, .d⟩] rfl

/-- C7: the wheel A-2-3-4-5 is recognized as a straight with top value 5, not
14: hole A spades and 2 diamonds on board 3c 4c 5h 9d Kc evaluates to category
Straight (4) with tiebreaker list `[5]`, and `getStraightValue` on the five
wheel cards is 5. -/
theorem wheel_straight_top_five :
    evaluateHand (⟨.rA, .s⟩, ⟨.r2, .d⟩)
        [⟨.r3, .c⟩, ⟨.r4, .c⟩, ⟨.r5, .h⟩, ⟨.r9, .d⟩, ⟨.rK, .c⟩] =
      .ok ⟨4, "Straight", [5]⟩ ∧
    getStraightValue [⟨.rA, .s⟩, ⟨.r2, .d⟩, ⟨.r3, .c⟩, ⟨.r4, .c⟩, ⟨.r5, .h⟩] = 5 := by
  exact ⟨rfl, rfl⟩

/-- C2 (code bug): in a hand with users 1 and 2 connected to the room, the
`game:cards:dealt` event carrying user 1's hole cards is delivered to user 2
as well, because `startHand` emits it through `io.to(room)` and relies on
client-side filtering; the claim requires delivery only to the owner. -/
theorem holeCards_delivered_to_other_user :
    (2, 1, (⟨.rA, .h⟩ : Card), (⟨.rK, .h⟩ : Card)) ∈ holeCardDeliveries [1, 2] scRoom ∧
    (2 : Nat) ≠ 1 := by
  constructor
  · decide
  · decide

/-- C1 (code bug): an S3-shaped showdown — A all-in for 100 with the best
hand, B and C committed 500 each, B beating C, pot 1100.  The partition is
main pot 300 (A, B, C eligible) and side pot 800 (B, C eligible), but
`determineWinner` evaluates one global winner list `[A]` and filters it per
pot, so the 800 side pot is awarded to no one: A receives 300 and B and C
receive nothing, instead of the side pot going to the better of B and C. -/
theorem sidePot_awarded_to_nobody :
    calculateSidePots [sc3A, sc3B, sc3C] = [⟨300, [1, 2, 3]⟩, ⟨800, [2, 3]⟩] ∧
    findWinners [sc3A, sc3B, sc3C] scBoard = .ok [1] ∧
    showdownDistribute [sc3A, sc3B, sc3C] scBoard 1100 =
      .ok [⟨1, "A", 0, 300, 100, some (⟨.rA, .c⟩, ⟨.rA, .s⟩), true, false, true⟩,
        sc3B, sc3C] ∧
    sumStacks [⟨1, "A", 0, 300, 100, some (⟨.rA, .c⟩, ⟨.rA, .s⟩), true, false, true⟩,
      sc3B, sc3C] = 300 ∧
    (300 : Int) ≠ 1100 := by
  exact ⟨by rfl, by rfl, by rfl, by rfl, by decide⟩

/-- C3 (code bug): a heads-up hand that committed 240 chips (20 preflop, 50
on the flop, 50 on the river per player, stacks down to 1380 each) loses
chips at showdown: `calculateSidePots` reads the per-street `currentBet`
(which holds only the river bets of 50), so only a 100-chip pot is
distributed and the stack sum drops from 3000 to 2860 across the hand. -/
theorem showdown_loses_chips :
    showdownDistribute [huP1, huP2] scBoard 240 =
      .ok [⟨1, "A", 0, 1480, 50, some (⟨.rA, .c⟩, ⟨.rA, .s⟩), true, false, true⟩, huP2] ∧
    sumStacks [huP1, huP2] + 240 = 3000 ∧
    sumStacks [⟨1, "A", 0, 1480, 50, some (⟨.rA, .c⟩, ⟨.rA, .s⟩), true, false, true⟩, huP2] =
      2860 ∧
    (2860 : Int) ≠ 3000 := by
  exact ⟨by rfl, by rfl, by rfl, by decide⟩

/-- C4 counterexample: a pot of 5 split among 3 tied winners has
`floor(5/3) = 1` and remainder 2, yet the first listed winner receives all 3
remaining chips (stack 10 to 13) rather than at most `floor(P/N) + 1 = 2`. -/
theorem distributePot_remainder_lump :
    distributePot 5 [1, 2, 3] scW =
      .ok [⟨1, "w1", 0, 13, 0, none, true, false, false⟩,
        ⟨2, "w2", 1, 11, 0, none, true, false, false⟩,
        ⟨3, "w3", 2, 11, 0, none, true, false, false⟩] ∧
    ¬ ((13 : Int) - 10 ≤ Int.fdiv 5 3 + 1) := by
  refine ⟨rfl, by decide⟩

/-- C5 counterexample: with `currentBet = 60` after the big blind's raise of
20 to 60 (so the spec's `minRaise` is 40), a re-raise to 100 is legal by the
claim (100 ≥ 60 + 40 and within the 1480 stack) yet the code rejects it
(100 < 60 × 2); conversely a raise to 2000 with only a 100-chip stack
violates the claim's stack condition yet the code accepts it as an all-in. -/
theorem raise_validation_mismatch :
    raiseCase 60 90 scSb [] (some 100) = .error "Raise amount too low" ∧
    specRaiseLegal 60 40 20 1480 100 ∧
    raiseCase 20 30 scQ [] (some 2000) =
      .ok ⟨20, 130, ⟨2, "x", 1, 0, 100, none, true, false, true⟩, [], "all_in"⟩ ∧
    ¬ specRaiseLegal 20 20 0 100 2000 := by
  refine ⟨rfl, by decide, rfl, by decide⟩

/-- C8 counterexample: after rotation on a heads-up table with live seats 0
and 1 and previous dealer 1, the code assigns dealer 0, small blind 1 and
big blind 0 — the dealer is the big blind, not the small blind as the claim
states. -/
theorem headsUp_dealer_is_big_blind :
    prepareRotation scHU 1 = (0, 1, 0) ∧ (1 : Nat) ≠ 0 := by
  refine ⟨rfl, by decide⟩

/-!
General behaviour of `distributePot`: the first winner receives the floor
share plus the whole remainder, every other winner the floor share.
-/

lemma hasPlayer_creditStack (ps : List PlayerState) (uid2 uid : Nat) (amt : Int) :
    hasPlayer (creditStack ps uid amt) uid2 = hasPlayer ps uid2 := by
  unfold hasPlayer creditStack
  rw [List.any_map]
  congr 1
  funext p
  by_cases hp : p.userId = uid <;> simp [hp]

lemma find?_creditStack (ps : List PlayerState) (uid uid2 : Nat) (amt : Int) :
    List.find? (fun p => p.userId == uid2) (creditStack ps uid amt) =
      (List.find? (fun p => p.userId == uid2) ps).map
        (fun p => if p.userId = uid then { p with stack := p.stack + amt } else p) := by
  unfold creditStack
  rw [List.find?_map]
  have hcomp : ((fun p : PlayerState => p.userId == uid2) ∘ fun p =>
      if p.userId = uid then { p with stack := p.stack + amt } else p) =
      fun p : PlayerState => p.userId == uid2 := by
    funext p
    by_cases hp : p.userId = uid <;> simp [hp]
  rw [hcomp]

lemma stackOf_creditStack_same (ps : List PlayerState) (uid : Nat) (amt : Int)
    (h : hasPlayer ps uid = true) :
    stackOf (creditStack ps uid amt) uid = stackOf ps uid + amt := by
  unfold stackOf
  rw [find?_creditStack]
  cases hf : List.find? (fun p => p.userId == uid) ps with
  | none =>
    exfalso
    obtain ⟨x, hx, hpx⟩ := List.any_eq_true.mp h
    exact (List.find?_eq_none.mp hf x hx) hpx
  | some q =>
    have hq : q.userId = uid := by simpa using List.find?_some hf
    simp [hq]

lemma stackOf_creditStack_other (ps : List PlayerState) (uid2 uid : Nat) (amt : Int)
    (h : uid2 ≠ uid) :
    stackOf (creditStack ps uid amt) uid2 = stackOf ps uid2 := by
  unfold stackOf
  rw [find?_creditStack]
  cases hf : List.find? (fun p => p.userId == uid2) ps with
  | none => rfl
  | some q =>
    have hq : q.userId = uid2 := by simpa using List.find?_some hf
    have hne : ¬ q.userId = uid := by rw [hq]; exact h
    simp [hne]

lemma awardWinners_ok_of_present (per rem : Int) :
    ∀ (ws : List Nat) (idx : Nat) (ps : List PlayerState),
    (∀ u ∈ ws, hasPlayer ps u = true) →
    ∃ ps2, awardWinners per rem ws idx ps = .ok ps2 := by
  intro ws
  induction ws with
  | nil => intro idx ps _; exact ⟨ps, rfl⟩
  | cons w ws ih =>
    intro idx ps hpres
    have hw : hasPlayer ps w = true := hpres w (List.mem_cons_self w ws)
    have hrest : ∀ u ∈ ws,
        hasPlayer (creditStack ps w (if idx = 0 then per + rem else per)) u = true := by
      intro u hu
      rw [hasPlayer_creditStack]
      exact hpres u (List.mem_cons_of_mem w hu)
    obtain ⟨ps2, h2⟩ := ih (idx + 1) _ hrest
    exact ⟨ps2, by simp [awardWinners, hw, h2]⟩

lemma awardWinners_stackOf_not_mem (per rem : Int) :
    ∀ (ws : List Nat) (idx : Nat) (ps ps2 : List PlayerState) (u : Nat),
    awardWinners per rem ws idx ps = .ok ps2 → u ∉ ws → stackOf ps2 u = stackOf ps u := by
  intro ws
  induction ws with
  | nil =>
    intro idx ps ps2 u h _
    simp [awardWinners] at h
    rw [h]
  | cons w ws ih =>
    intro idx ps ps2 u h hu
    have hw : u ≠ w := fun hc => hu (hc ▸ List.mem_cons_self w ws)
    have hus : u ∉ ws := fun hc => hu (List.mem_cons_of_mem w hc)
    by_cases hpres : hasPlayer ps w = true
    · simp only [awardWinners, if_pos hpres] at h
      rw [ih (idx + 1) _ ps2 u h hus]
      exact stackOf_creditStack_other _ u w _ hw
    · simp [awardWinners, hpres] at h

lemma awardWinners_stackOf_mem (per rem : Int) :
    ∀ (ws : List Nat) (idx : Nat) (ps ps2 : List PlayerState),
    idx ≠ 0 → ws.Nodup → awardWinners per rem ws idx ps = .ok ps2 →
    ∀ u ∈ ws, stackOf ps2 u = stackOf ps u + per := by
  intro ws
  induction ws with
  | nil => intro idx ps ps2 _ _ _ u hu; cases hu
  | cons w ws ih =>
    intro idx ps ps2 hidx hnd h u hu
    have hwws : w ∉ ws := (List.nodup_cons.mp hnd).1
    have hnd2 : ws.Nodup := (List.nodup_cons.mp hnd).2
    by_cases hpres : hasPlayer ps w = true
    · simp only [awardWinners, if_pos hpres, if_neg hidx] at h
      rcases List.mem_cons.mp hu with rfl | hus
      · rw [awardWinners_stackOf_not_mem per rem ws (idx + 1) _ ps2 u h hwws]
        exact stackOf_creditStack_same ps u per hpres
      · have hu2 : u ≠ w := fun hc => hwws (hc ▸ hus)
        rw [ih (idx + 1) _ ps2 (Nat.succ_ne_zero idx) hnd2 h u hus]
        rw [stackOf_creditStack_other ps u w per hu2]
    · simp [awardWinners, hpres] at h

/-- C4 amended: when a pot of P chips is split among the nonempty winner list
`w :: ws` (all present, no duplicates), every winner receives
`floor(P / N)` chips and the first listed winner additionally receives the
entire remainder `P mod N` — not one chip each to `P mod N` distinct winners,
so a winner may gain up to `floor(P/N) + N - 1`. -/
theorem distributePot_first_winner_gets_remainder (pot : Int) (w : Nat) (ws : List Nat)
    (ps : List PlayerState) (hnd : (w :: ws).Nodup)
    (hpres : ∀ u ∈ w :: ws, hasPlayer ps u = true) :
    ∃ ps2, distributePot pot (w :: ws) ps = .ok ps2 ∧
      stackOf ps2 w =
        stackOf ps w + Int.fdiv pot (w :: ws).length + Int.tmod pot (w :: ws).length ∧
      ∀ u ∈ ws, stackOf ps2 u = stackOf ps u + Int.fdiv pot (w :: ws).length := by
  have hw : hasPlayer ps w = true := hpres w (List.mem_cons_self w ws)
  have hwws : w ∉ ws := (List.nodup_cons.mp hnd).1
  have hnd2 : ws.Nodup := (List.nodup_cons.mp hnd).2
  set per := Int.fdiv pot (w :: ws).length with hper
  set rem := Int.tmod pot (w :: ws).length with hrem
  have hrest : ∀ u ∈ ws, hasPlayer (creditStack ps w (per + rem)) u = true := by
    intro u hu
    rw [hasPlayer_creditStack]
    exact hpres u (List.mem_cons_of_mem w hu)
  obtain ⟨ps2, h2⟩ := awardWinners_ok_of_present per rem ws 1 _ hrest
  refine ⟨ps2, ?_, ?_, ?_⟩
  · show (if (w :: ws).isEmpty = true then _ else _) = _
    rw [if_neg (by simp)]
    show awardWinners per rem (w :: ws) 0 ps = .ok ps2
    simp only [awardWinners, if_pos hw, if_pos rfl]
    exact h2
  · rw [awardWinners_stackOf_not_mem per rem ws 1 _ ps2 w h2 hwws]
    rw [stackOf_creditStack_same ps w (per + rem) hw]
    ring
  · intro u hu
    have hu2 : u ≠ w := fun hc => hwws (hc ▸ hu)
    rw [awardWinners_stackOf_mem per rem ws 1 _ ps2 one_ne_zero hnd2 h2 u hu]
    rw [stackOf_creditStack_other ps u w (per + rem) hu2]

/-- Witness for C4 amended: a pot of 7 split between winners 1 and 2 of the
three-player table. -/
theorem distributePot_first_winner_gets_remainder_witness :
    (([1, 2] : List Nat).Nodup ∧ ∀ u ∈ [1, 2], hasPlayer scW u = true) ∧
    ∃ ps2, distributePot 7 [1, 2] scW = .ok ps2 ∧
      stackOf ps2 1 = stackOf scW 1 + Int.fdiv 7 ([1, 2] : List Nat).length +
        Int.tmod 7 ([1, 2] : List Nat).length ∧
      ∀ u ∈ [2], stackOf ps2 u = stackOf scW u + Int.fdiv 7 ([1, 2] : List Nat).length :=
  ⟨⟨by decide, by decide⟩,
    distributePot_first_winner_gets_remainder 7 1 [2] scW (by decide) (by decide)⟩

/-- C5 amended: the raise branch accepts an action iff the amount is present,
nonzero, and at least `2 × currentBet` — there is no `minRaise` state and no
stack-based rejection: when the amount exceeds the player's chips the raise is
accepted and converted into an all-in of the whole remaining stack, leaving
the table `currentBet` unchanged. -/
theorem raiseCase_accepts_iff (currentBet pot : Int) (player : PlayerState)
    (others : List PlayerState) (amount : Option Int) (amt : Int) :
    ((raiseCase currentBet pot player others amount).isOk = true ↔
      ∃ a, amount = some a ∧ a ≠ 0 ∧ currentBet * 2 ≤ a) ∧
    (amount = some amt → amt ≠ 0 → currentBet * 2 ≤ amt →
      player.stack < amt - player.currentBet →
      ∃ out, raiseCase currentBet pot player others amount = .ok out ∧
        out.actionType = "all_in" ∧ out.player.stack = 0 ∧
        out.player.currentBet = player.currentBet + player.stack ∧
        out.currentBet = currentBet ∧ out.pot = pot + player.stack) := by
  constructor
  · constructor
    · intro h
      cases amount with
      | none => simp [raiseCase, Except.isOk, Except.toBool] at h
      | some a =>
        by_cases hcond : a = 0 ∨ a < currentBet * 2
        · simp [raiseCase, hcond, Except.isOk, Except.toBool] at h
        · push_neg at hcond
          exact ⟨a, rfl, hcond.1, by omega⟩
    · rintro ⟨a, rfl, h0, hge⟩
      have hcond : ¬ (a = 0 ∨ a < currentBet * 2) := by omega
      simp only [raiseCase, if_neg hcond]
      by_cases hs : player.stack < a - player.currentBet
      · simp [hs, Except.isOk, Except.toBool]
      · simp [hs, Except.isOk, Except.toBool]
  · intro ha h0 hge hs
    subst ha
    have hcond : ¬ (amt = 0 ∨ amt < currentBet * 2) := by omega
    refine ⟨⟨currentBet, pot + player.stack,
      { player with
          stack := 0
          currentBet := player.currentBet + player.stack
          hasActed := true },
      others.map fun p =>
        if p.userId != player.userId && !p.isFolded then { p with hasActed := false } else p,
      "all_in"⟩, ?_, rfl, rfl, rfl, rfl, rfl⟩
    simp only [raiseCase, if_neg hcond, if_pos hs]

/-- Witness for C5 amended: raise to 2000 holding a 100-chip stack against a
current bet of 20 — accepted, recorded as an all-in of the whole stack. -/
theorem raiseCase_accepts_iff_witness :
    ((raiseCase 20 30 scQ [] (some 2000)).isOk = true) ∧
    (∃ out, raiseCase 20 30 scQ [] (some 2000) = .ok out ∧
      out.actionType = "all_in" ∧ out.player.stack = 0 ∧
      out.player.currentBet = scQ.currentBet + scQ.stack ∧
      out.currentBet = 20 ∧ out.pot = 30 + scQ.stack) :=
  ⟨(raiseCase_accepts_iff 20 30 scQ [] (some 2000) 2000).1.mpr
      ⟨2000, rfl, by decide, by decide⟩,
    (raiseCase_accepts_iff 20 30 scQ [] (some 2000) 2000).2 rfl
      (by decide) (by decide) (by decide)⟩

/-!
Sorted-list lemmas for the blind rotation: on a strictly sorted position list
the code's index arithmetic computes exactly the clockwise-next seat.
-/

lemma sorted_find_gt : ∀ (ps : List Nat), List.Sorted (· < ·) ps →
    ∀ (i : Nat) (hi : i < ps.length),
    List.find? (fun p => decide (ps.get ⟨i, hi⟩ < p)) ps =
      if h : i + 1 < ps.length then some (ps.get ⟨i + 1, h⟩) else none := by
  intro ps
  induction ps with
  | nil => intro _ i hi; exact absurd hi (Nat.not_lt_zero i)
  | cons a t ih =>
    intro hs i hi
    have hat : ∀ x ∈ t, a < x := (List.sorted_cons.mp hs).1
    have hts : List.Sorted (· < ·) t := (List.sorted_cons.mp hs).2
    cases i with
    | zero =>
      rw [List.find?_cons]
      rw [show (decide ((a :: t).get ⟨0, hi⟩ < a)) = false by simp]
      cases t with
      | nil => rfl
      | cons b s =>
        have hab : a < b := hat b (List.mem_cons_self b s)
        rw [List.find?_cons]
        rw [show (decide ((a :: b :: s).get ⟨0, hi⟩ < b)) = true by simpa using hab]
        rw [dif_pos (by simp)]
        rfl
    | succ j =>
      have hj : j < t.length := Nat.lt_of_succ_lt_succ hi
      have hmem : t.get ⟨j, hj⟩ ∈ t := List.get_mem t j hj
      have hlt : a < t.get ⟨j, hj⟩ := hat _ hmem
      rw [List.find?_cons]
      rw [show (decide ((a :: t).get ⟨j + 1, hi⟩ < a)) = false by
        simp only [List.get_cons_succ]
        simpa using Nat.lt_asymm hlt]
      have hpred : (fun p => decide ((a :: t).get ⟨j + 1, hi⟩ < p)) =
          fun p => decide (t.get ⟨j, hj⟩ < p) := by
        funext p
        simp only [List.get_cons_succ]
      rw [hpred, ih hts j hj]
      by_cases h : j + 1 < t.length
      · rw [dif_pos h, dif_pos (by simpa using Nat.succ_lt_succ h)]
        simp only [List.get_cons_succ]
      · rw [dif_neg h, dif_neg (by simp only [List.length_cons]; omega)]

lemma specNextClockwise_get (ps : List Nat) (hs : List.Sorted (· < ·) ps)
    (i : Nat) (hi : i < ps.length) :
    specNextClockwise ps (ps.get ⟨i, hi⟩) = ps.getD ((i + 1) % ps.length) 0 := by
  unfold specNextClockwise
  rw [sorted_find_gt ps hs i hi]
  by_cases h : i + 1 < ps.length
  · rw [dif_pos h, Nat.mod_eq_of_lt h, List.getD_eq_getElem _ _ h]
    rfl
  · rw [dif_neg h]
    have hlen : i + 1 = ps.length := by omega
    rw [hlen, Nat.mod_self]
    cases ps with
    | nil => exact absurd hi (Nat.not_lt_zero i)
    | cons a t => rfl

/-- C8 amended: after rotation the small blind is the next non-eliminated
seat clockwise of the dealer and the big blind is the next seat clockwise of
the small blind, uniformly — so on a heads-up table the dealer is the big
blind, not the small blind. -/
theorem blinds_are_next_clockwise (ps : List Nat) (d : Nat)
    (hs : List.Sorted (· < ·) ps) (hd : d ∈ ps) (h2 : 2 ≤ ps.length) :
    (blindPositionsAfter ps d).1 = specNextClockwise ps d ∧
    (blindPositionsAfter ps d).2 = specNextClockwise ps (specNextClockwise ps d) := by
  have hidx : ps.indexOf d < ps.length := List.indexOf_lt_length.mpr hd
  have hget : ps.get ⟨ps.indexOf d, hidx⟩ = d := List.indexOf_get hidx
  have hnext : specNextClockwise ps d = ps.getD ((ps.indexOf d + 1) % ps.length) 0 := by
    conv_lhs => rw [← hget]
    exact specNextClockwise_get ps hs (ps.indexOf d) hidx
  have hj : (ps.indexOf d + 1) % ps.length < ps.length :=
    Nat.mod_lt _ (by omega)
  have hgetj : ps.getD ((ps.indexOf d + 1) % ps.length) 0 =
      ps.get ⟨(ps.indexOf d + 1) % ps.length, hj⟩ := by
    rw [List.getD_eq_getElem _ _ hj]
    rfl
  constructor
  · rw [hnext]
    rfl
  · show ps.getD ((ps.indexOf d + 2) % ps.length) 0 = _
    rw [hnext, hgetj, specNextClockwise_get ps hs _ hj]
    have hmod : ((ps.indexOf d + 1) % ps.length + 1) % ps.length =
        (ps.indexOf d + 2) % ps.length := by
      conv_rhs => rw [show ps.indexOf d + 2 = (ps.indexOf d + 1) + 1 from rfl]
      rw [Nat.add_mod (ps.indexOf d + 1) 1 ps.length,
        Nat.mod_eq_of_lt (show 1 < ps.length by omega)]
    rw [hmod]

/-- Witness for C8 amended at the live seats 0, 1, 2 with dealer 2. -/
theorem blinds_are_next_clockwise_witness :
    (List.Sorted (· < ·) [0, 1, 2] ∧ 2 ∈ [0, 1, 2] ∧ 2 ≤ ([0, 1, 2] : List Nat).length) ∧
    (blindPositionsAfter [0, 1, 2] 2).1 = specNextClockwise [0, 1, 2] 2 ∧
    (blindPositionsAfter [0, 1, 2] 2).2 =
      specNextClockwise [0, 1, 2] (specNextClockwise [0, 1, 2] 2) :=
  ⟨⟨by decide, by decide, by decide⟩,
    blinds_are_next_clockwise [0, 1, 2] 2 (by decide) (by decide) (by decide)⟩

end Poker
